import Mathlib

/-!
Shallow embedding of `rvc/lib/tools/prerequisites_download.py` from the Applio
repository, together with theorems about its download-orchestration behaviour.

The module downloads prerequisite assets: it probes the size of files that are
missing locally (HEAD requests), and then, per asset category, dispatches one
fetch worker per missing file, streaming each response body to disk in
1024-byte chunks while advancing a shared rich progress task.

Modelling conventions:
  * the local filesystem is an association list from path to file size
    (`fs` field of `World`); `os.path.exists` is lookup success;
  * the network is a pure environment `Env`: `headResp` maps a URL to the
    optional content-length header of a HEAD response (or a network error),
    `getResp` maps a URL to a GET response (declared content length plus the
    body, represented by its length in bytes); `osName` models `os.name`;
  * `World` additionally carries ghost instrumentation: logs of HEAD and GET
    requests, chunk writes, worker dispatches, category batches, an event
    trace, and printed messages.  The instrumentation only records what the
    Python code does; it never influences control flow;
  * the rich progress bar is a single task `Progress` (total, transferred,
    description, stopped); `progress.update(advance=..)` adds to
    `transferred`, `progress.update(total=..)` overwrites `total`;
  * the thread pool of `download_mapping_files` is serialised: all missing
    files of a category are collected (dispatched) first, then the workers
    run, and the category only finishes after every worker finished, which
    mirrors the `future.result()` join loop.  Network errors of HEAD
    requests are modelled with `Except Unit`.
-/

namespace Applio

/-- Association of a remote folder with the file names inside it, exactly the
shape of the Python catalog lists. -/
abbrev Catalog := List (String × List String)

def url_base : String := "https://huggingface.co/IAHispano/Applio/resolve/main/Resources"

/-- The `pretraineds_hifigan_list` literal as written in the source, before the
module-level rebinding `pretraineds_hifigan_list, _ = split_pretraineds(...)`. -/
def pretraineds_hifigan_base : Catalog :=
  [("pretrained_v2/",
    ["f0D32k.pth", "f0D40k.pth", "f0D48k.pth", "f0G32k.pth", "f0G40k.pth", "f0G48k.pth"])]

def models_list : Catalog := [("predictors/", ["rmvpe.pt", "fcpe.pt"])]

def embedders_list : Catalog := [("embedders/contentvec/", ["pytorch_model.bin", "config.json"])]

def executables_list : Catalog := [("", ["ffmpeg.exe", "ffprobe.exe"])]

def folder_mapping_list : List (String × String) :=
  [("pretrained_v2/", "rvc/models/pretraineds/hifi-gan/"),
   ("embedders/contentvec/", "rvc/models/embedders/contentvec/"),
   ("predictors/", "rvc/models/predictors/"),
   ("formant/", "rvc/models/formant/")]

/-- Whether `pat` begins `l`, elementwise. -/
def listBeginsWith [BEq α] : List α → List α → Bool
  | _, [] => true
  | [], _ :: _ => false
  | a :: as, b :: bs => a == b && listBeginsWith as bs

/-- Model of Python `str.startswith`. -/
def strStartsWith (s pat : String) : Bool :=
  listBeginsWith s.data pat.data

/-- The f0 / non-f0 split of a pretrained catalog (`split_pretraineds`). -/
def split_pretraineds : Catalog → Catalog × Catalog
  | [] => ([], [])
  | (folder, files) :: rest =>
    let r := split_pretraineds rest
    let f0_files := files.filter (fun f => strStartsWith f "f0")
    let non_f0_files := files.filter (fun f => !(strStartsWith f "f0"))
    ((if f0_files.isEmpty then r.1 else (folder, f0_files) :: r.1),
     (if non_f0_files.isEmpty then r.2 else (folder, non_f0_files) :: r.2))

/-- Value of the global `pretraineds_hifigan_list` after the module-level
rebinding to the first component of the split. -/
def pretraineds_hifigan_list : Catalog := (split_pretraineds pretraineds_hifigan_base).1

/-- Resolution of `folder_mapping_list.get(remote_folder, "")`. -/
def lookupFolder (remote_folder : String) : String :=
  (folder_mapping_list.lookup remote_folder).getD ""

/-- Whether a path ends with the separator. -/
def endsWithSlash (s : String) : Bool :=
  match s.data.getLast? with
  | some c => c == '/'
  | none => false

/-- POSIX `os.path.join` for the path shapes used by the module. -/
def osJoin (a b : String) : String :=
  if a == "" then b else if endsWithSlash a then a ++ b else a ++ "/" ++ b

/-- URL construction `f"{url_base}/{remote_folder}{file}"`. -/
def mkUrl (remote_folder file : String) : String :=
  url_base ++ "/" ++ remote_folder ++ file

/-- Model of `os.path.exists` over the association-list filesystem. -/
def fsExists (fs : List (String × Nat)) (p : String) : Bool :=
  (fs.lookup p).isSome

/-- Size (in bytes) of the file stored at `p`, if it exists. -/
def fileSize (fs : List (String × Nat)) (p : String) : Option Nat :=
  fs.lookup p

/-- Split a character list at every occurrence of `c` (the shape of Python
`str.split` with a single-character separator). -/
def splitChar (c : Char) : List Char → List (List Char)
  | [] => [[]]
  | a :: as =>
    let r := splitChar c as
    if a == c then [] :: r
    else
      match r with
      | [] => [[a]]
      | g :: gs => (a :: g) :: gs

/-- The `/`-separated components of a path. -/
def pathParts (p : String) : List String :=
  (splitChar '/' p.data).map (fun l => String.mk l)

/-- Join path components with `/` (inverse of `pathParts`). -/
def joinSlash : List String → String
  | [] => ""
  | [s] => s
  | s :: rest => s ++ "/" ++ joinSlash rest

/-- Model of `os.path.dirname`: everything before the last separator. -/
def dirname (p : String) : String :=
  let parts := pathParts p
  if parts.length ≤ 1 then "" else joinSlash parts.dropLast

/-- Model of `os.path.basename`: the part after the last separator. -/
def basename (p : String) : String :=
  (pathParts p).getLastD ""

/-- All directories `os.makedirs` creates for `d`: every proper ancestor of
`d` followed by `d` itself. -/
def ancestors (d : String) : List String :=
  let parts := pathParts d
  ((List.range (parts.length - 1)).map (fun i => joinSlash (parts.take (i + 1)))) ++ [d]

/-- Record one directory as existing, keeping the set duplicate free. -/
def mkdirOne (ds : List String) (a : String) : List String :=
  if ds.contains a then ds else ds ++ [a]

/-- Model of `os.makedirs(d, exist_ok=True)`. -/
def makedirs (ds : List String) (d : String) : List String :=
  (ancestors d).foldl mkdirOne ds

/-- A GET response: the declared `content-length` header (if any) and the
body, represented by its length in bytes. -/
structure GetResponse where
  contentLength : Option Nat
  bodyLen : Nat

/-- The external environment: HEAD responses (which may fail with a network
error), GET responses, and the value of `os.name`. -/
structure Env where
  headResp : String → Except Unit (Option Nat)
  getResp : String → GetResponse
  osName : String

/-- Ghost trace events recording the orchestration order. -/
inductive Event where
  | catStart (cat : Catalog) : Event
  | dispatchedFile (destination : String) : Event
  | completedFile (destination : String) : Event
  | catDone (cat : Catalog) : Event
  | labelSet (text : String) : Event
deriving DecidableEq

/-- The mutable world: the filesystem, the created directories, and ghost
logs of everything the code did. -/
structure World where
  fs : List (String × Nat)
  dirs : List String
  headLog : List String
  getLog : List String
  writeLog : List (String × Nat)
  dispatchLog : List (String × String)
  batches : List (Catalog × List (String × String))
  trace : List Event
  messages : List String
deriving DecidableEq

/-- The single rich progress task of the pipeline. -/
structure Progress where
  total : Nat
  transferred : Nat
  description : String
  stopped : Bool
deriving DecidableEq

def initWorld (fs : List (String × Nat)) : World :=
  { fs := fs, dirs := [], headLog := [], getLog := [], writeLog := [],
    dispatchLog := [], batches := [], trace := [], messages := [] }

def progress0 : Progress :=
  { total := 0, transferred := 0, description := "", stopped := false }

/-- Inner loop of `get_file_size_if_missing` over one catalog entry: for each
file whose destination is missing, issue a HEAD request and add the reported
content length (a missing header counts as 0).  Returns the total together
with the list of HEAD-requested URLs, or the first network error. -/
def probeFolder (env : Env) (fs : List (String × Nat)) (remote_folder local_folder : String) :
    List String → Except Unit (Nat × List String)
  | [] => .ok (0, [])
  | file :: rest =>
    let destination_path := osJoin local_folder file
    if fsExists fs destination_path then
      probeFolder env fs remote_folder local_folder rest
    else
      let url := mkUrl remote_folder file
      match env.headResp url with
      | .error e => .error e
      | .ok hdr =>
        match probeFolder env fs remote_folder local_folder rest with
        | .error e2 => .error e2
        | .ok (t, log) => .ok (hdr.getD 0 + t, url :: log)

/-- Outer loop of `get_file_size_if_missing` over the catalog entries. -/
def probeCatalog (env : Env) (fs : List (String × Nat)) : Catalog → Except Unit (Nat × List String)
  | [] => .ok (0, [])
  | (remote_folder, files) :: rest =>
    match probeFolder env fs remote_folder (lookupFolder remote_folder) files with
    | .error e => .error e
    | .ok (t1, log1) =>
      match probeCatalog env fs rest with
      | .error e2 => .error e2
      | .ok (t2, log2) => .ok (t1 + t2, log1 ++ log2)

/-- Model of `get_file_size_if_missing`: the probed total size of the missing
files of `file_list`, threading the world to record the HEAD requests. -/
def get_file_size_if_missing (env : Env) (file_list : Catalog) (w : World) :
    Except Unit (Nat × World) :=
  match probeCatalog env w.fs file_list with
  | .error e => .error e
  | .ok (t, log) => .ok (t, { w with headLog := w.headLog ++ log })

/-- Model of `calculate_total_size(pretraineds_hifigan, models, exe)`. -/
def calculate_total_size (env : Env) (pretraineds_hifigan : Catalog) (models exe : Bool)
    (w : World) : Except Unit (Nat × World) :=
  match (if models then
      match get_file_size_if_missing env models_list w with
      | .error e => .error e
      | .ok (t1, w1) =>
        match get_file_size_if_missing env embedders_list w1 with
        | .error e => .error e
        | .ok (t2, w2) => .ok (t1 + t2, w2)
    else .ok (0, w) : Except Unit (Nat × World)) with
  | .error e => .error e
  | .ok (tm, wm) =>
    match (if exe && (env.osName == "nt") then
        get_file_size_if_missing env executables_list wm
      else .ok (0, wm) : Except Unit (Nat × World)) with
    | .error e => .error e
    | .ok (te, we) =>
      match get_file_size_if_missing env pretraineds_hifigan we with
      | .error e => .error e
      | .ok (tp, wp) => .ok (tm + te + tp, wp)

/-- Sizes of the successive chunks `response.iter_content(1024)` yields for a
body of `n` bytes: full 1024-byte blocks followed by the remainder. -/
def chunkSizes (n : Nat) : List Nat :=
  List.replicate (n / 1024) 1024 ++ (if n % 1024 == 0 then [] else [n % 1024])

/-- The chunked write loop of `download_file`: append each chunk to the
destination file, log the write, and advance the progress counter.  Operates
on the sub-state (filesystem, write log, transferred bytes) the loop touches. -/
def writeChunks (destination_path : String) :
    List Nat → List (String × Nat) → List (String × Nat) → Nat →
      List (String × Nat) × List (String × Nat) × Nat
  | [], fs, wlog, tr => (fs, wlog, tr)
  | c :: cs, fs, wlog, tr =>
    writeChunks destination_path cs
      ((destination_path, (fs.lookup destination_path).getD 0 + c) :: fs)
      (wlog ++ [(destination_path, c)]) (tr + c)

/-- Model of `download_file(url, destination_path, progress, task_id)`:
create the parent directory if needed, open a streaming GET, overwrite the
task total with this response's declared length and the description with the
file name, then stream the body to disk in 1024-byte chunks, advancing the
progress counter per chunk (`open(.., "wb")` first truncates the file). -/
def download_file (env : Env) (url destination_path : String) (w : World) (p : Progress) :
    World × Progress :=
  let dir_name := dirname destination_path
  let newDirs := if dir_name == "" then w.dirs else makedirs w.dirs dir_name
  let response := env.getResp url
  let total_size := response.contentLength.getD 0
  let p1 : Progress :=
    { p with total := total_size, description := "Downloading " ++ basename destination_path }
  let r := writeChunks destination_path (chunkSizes response.bodyLen)
      ((destination_path, 0) :: w.fs) w.writeLog p1.transferred
  ({ w with dirs := newDirs, getLog := w.getLog ++ [url], fs := r.1, writeLog := r.2.1 },
   { p1 with transferred := r.2.2 })

/-- The `(url, destination_path)` pairs `download_mapping_files` submits to
the executor: one per catalog file whose destination does not exist. -/
def collectMissing (fs : List (String × Nat)) : Catalog → List (String × String)
  | [] => []
  | e :: rest =>
    ((e.2.filter (fun f => !(fsExists fs (osJoin (lookupFolder e.1) f)))).map
      (fun f => (mkUrl e.1 f, osJoin (lookupFolder e.1) f))) ++ collectMissing fs rest

/-- Join loop over the submitted futures: run each worker, recording its
completion; the batch only ends after every worker has completed. -/
def runWorkers (env : Env) : List (String × String) → World → Progress → World × Progress
  | [], w, p => (w, p)
  | t :: ts, w, p =>
    let r := download_file env t.1 t.2 w p
    runWorkers env ts { r.1 with trace := r.1.trace ++ [Event.completedFile t.2] } r.2

/-- Model of `download_mapping_files(file_mapping_list, progress, task_id)`:
collect the missing files of the category, dispatch one worker per missing
file into the pool, then block until every worker of the batch finished. -/
def download_mapping_files (env : Env) (file_mapping_list : Catalog) (w : World) (p : Progress) :
    World × Progress :=
  let tasks := collectMissing w.fs file_mapping_list
  let w1 := { w with
    trace := w.trace ++ [Event.catStart file_mapping_list]
      ++ tasks.map (fun t => Event.dispatchedFile t.2),
    dispatchLog := w.dispatchLog ++ tasks,
    batches := w.batches ++ [(file_mapping_list, tasks)] }
  let r := runWorkers env tasks w1 p
  ({ r.1 with trace := r.1.trace ++ [Event.catDone file_mapping_list] }, r.2)

/-- Model of `prequisites_download_pipeline(pretraineds_hifigan, models, exe)`. -/
def prequisites_download_pipeline (env : Env) (pretraineds_hifigan models exe : Bool)
    (w : World) (p : Progress) : Except Unit (World × Progress) :=
  match calculate_total_size env (if pretraineds_hifigan then pretraineds_hifigan_list else [])
      models exe w with
  | .error e => .error e
  | .ok (total_size, w0) =>
    if 0 < total_size then
      let p0 : Progress :=
        { total := total_size, transferred := 0,
          description := "Downloading all files", stopped := false }
      let s1 := if models then
          let r1 := download_mapping_files env models_list w0 p0
          download_mapping_files env embedders_list r1.1 r1.2
        else (w0, p0)
      let s2 := if exe then
          if env.osName == "nt" then download_mapping_files env executables_list s1.1 s1.2
          else ({ s1.1 with messages := s1.1.messages ++ ["No executables needed"] }, s1.2)
        else s1
      let s3 := if pretraineds_hifigan then
          download_mapping_files env pretraineds_hifigan_list s2.1 s2.2
        else s2
      let p3 : Progress := { s3.2 with stopped := true }
      let p4 : Progress := { p3 with description := "[bold green]Download Complete!" }
      .ok ({ s3.1 with trace := s3.1.trace ++ [Event.labelSet "[bold green]Download Complete!"] },
        p4)
    else
      .ok ({ w0 with messages := w0.messages ++ ["All files are already downloaded."] }, p)

/-- Destination paths of every file of a catalog, in catalog order. -/
def catalogDests : Catalog → List String
  | [] => []
  | e :: rest => (e.2.map (fun f => osJoin (lookupFolder e.1) f)) ++ catalogDests rest

/-- Every destination path of the catalog exists on the filesystem. -/
def allPresent (fs : List (String × Nat)) (l : Catalog) : Bool :=
  (catalogDests l).all (fun d => fsExists fs d)

/-- Whether the HEAD request for `u` succeeds in `env`. -/
def headOk (env : Env) (u : String) : Bool :=
  match env.headResp u with
  | .ok _ => true
  | .error _ => false

/-- Content length a successful HEAD request for `u` reports (0 when the
header is absent or the request fails). -/
def headVal (env : Env) (u : String) : Nat :=
  match env.headResp u with
  | .ok h => h.getD 0
  | .error _ => 0

/-- Files a catalog lists under a given folder, in order. -/
def folderFiles (folder : String) : Catalog → List String
  | [] => []
  | e :: rest => (if e.1 == folder then e.2 else []) ++ folderFiles folder rest

/-- Whether an event is a label update. -/
def isLabel : Event → Bool
  | .labelSet _ => true
  | _ => false

/-- The size probe of a run succeeds with a positive total. -/
def calcPositiveB (env : Env) (pretraineds_hifigan : Catalog) (models exe : Bool)
    (w : World) : Bool :=
  match calculate_total_size env pretraineds_hifigan models exe w with
  | .ok (t, _) => decide (0 < t)
  | .error _ => false

/-- Catalogs of the batches a run dispatched, in dispatch order. -/
def batchCats (x : Except Unit (World × Progress)) : List Catalog :=
  match x with
  | .ok r => r.1.batches.map Prod.fst
  | .error _ => []

/-- Messages a run printed. -/
def runMessages (x : Except Unit (World × Progress)) : List String :=
  match x with
  | .ok r => r.1.messages
  | .error _ => []

/-! Concrete environments and filesystems used to witness the theorems. -/

/-- A server that declares and serves 100 bytes for every resource. -/
def env100 : Env :=
  { headResp := fun _ => .ok (some 100),
    getResp := fun _ => { contentLength := some 100, bodyLen := 100 },
    osName := "posix" }

/-- The same server, seen from a Windows host. -/
def envNt100 : Env :=
  { headResp := fun _ => .ok (some 100),
    getResp := fun _ => { contentLength := some 100, bodyLen := 100 },
    osName := "nt" }

/-- A server whose every HEAD request fails with a network error. -/
def envErr : Env :=
  { headResp := fun _ => .error (),
    getResp := fun _ => { contentLength := none, bodyLen := 0 },
    osName := "posix" }

/-- A filesystem on which only the two embedder files are present. -/
def fsEmb : List (String × Nat) :=
  [("rvc/models/embedders/contentvec/pytorch_model.bin", 1),
   ("rvc/models/embedders/contentvec/config.json", 1)]

/-- A filesystem on which every catalog file of every category is present. -/
def fsAll : List (String × Nat) :=
  [("rvc/models/predictors/rmvpe.pt", 1),
   ("rvc/models/predictors/fcpe.pt", 1),
   ("rvc/models/embedders/contentvec/pytorch_model.bin", 1),
   ("rvc/models/embedders/contentvec/config.json", 1),
   ("ffmpeg.exe", 1),
   ("ffprobe.exe", 1),
   ("rvc/models/pretraineds/hifi-gan/f0D32k.pth", 1),
   ("rvc/models/pretraineds/hifi-gan/f0D40k.pth", 1),
   ("rvc/models/pretraineds/hifi-gan/f0D48k.pth", 1),
   ("rvc/models/pretraineds/hifi-gan/f0G32k.pth", 1),
   ("rvc/models/pretraineds/hifi-gan/f0G40k.pth", 1),
   ("rvc/models/pretraineds/hifi-gan/f0G48k.pth", 1)]

/-- A three-file catalog used to witness the size-probe contract. -/
def catalog3 : Catalog := [("predictors/", ["a.pt", "b.pt", "c.pt"])]

/-- A filesystem on which only the middle file of `catalog3` is present. -/
def fs3 : List (String × Nat) := [("rvc/models/predictors/b.pt", 5)]

/-- A server that reports a content length only for `a.pt` (so the missing
header of `c.pt` counts as 0). -/
def env3 : Env :=
  { headResp := fun u => if u == mkUrl "predictors/" "a.pt" then .ok (some 100) else .ok none,
    getResp := fun _ => { contentLength := none, bodyLen := 0 },
    osName := "posix" }

/-! Frame lemmas: which parts of the state each operation leaves unchanged. -/

theorem download_file_batches (env : Env) (url d : String) (w : World) (p : Progress) :
    (download_file env url d w p).1.batches = w.batches := rfl

theorem download_file_trace (env : Env) (url d : String) (w : World) (p : Progress) :
    (download_file env url d w p).1.trace = w.trace := rfl

theorem download_file_messages (env : Env) (url d : String) (w : World) (p : Progress) :
    (download_file env url d w p).1.messages = w.messages := rfl

theorem download_file_dispatchLog (env : Env) (url d : String) (w : World) (p : Progress) :
    (download_file env url d w p).1.dispatchLog = w.dispatchLog := rfl

theorem download_file_headLog (env : Env) (url d : String) (w : World) (p : Progress) :
    (download_file env url d w p).1.headLog = w.headLog := rfl

theorem runWorkers_batches (env : Env) :
    ∀ (ts : List (String × String)) (w : World) (p : Progress),
      (runWorkers env ts w p).1.batches = w.batches := by
  intro ts
  induction ts with
  | nil => intro w p; rfl
  | cons t ts ih => intro w p; simp [runWorkers, ih, download_file_batches]

theorem runWorkers_messages (env : Env) :
    ∀ (ts : List (String × String)) (w : World) (p : Progress),
      (runWorkers env ts w p).1.messages = w.messages := by
  intro ts
  induction ts with
  | nil => intro w p; rfl
  | cons t ts ih => intro w p; simp [runWorkers, ih, download_file_messages]

theorem runWorkers_dispatchLog (env : Env) :
    ∀ (ts : List (String × String)) (w : World) (p : Progress),
      (runWorkers env ts w p).1.dispatchLog = w.dispatchLog := by
  intro ts
  induction ts with
  | nil => intro w p; rfl
  | cons t ts ih => intro w p; simp [runWorkers, ih, download_file_dispatchLog]

theorem runWorkers_trace (env : Env) :
    ∀ (ts : List (String × String)) (w : World) (p : Progress),
      (runWorkers env ts w p).1.trace
        = w.trace ++ ts.map (fun t => Event.completedFile t.2) := by
  intro ts
  induction ts with
  | nil => intro w p; simp [runWorkers]
  | cons t ts ih => intro w p; simp [runWorkers, ih, download_file_trace]

theorem download_mapping_files_batches (env : Env) (cat : Catalog) (w : World) (p : Progress) :
    (download_mapping_files env cat w p).1.batches
      = w.batches ++ [(cat, collectMissing w.fs cat)] := by
  simp [download_mapping_files, runWorkers_batches]

theorem download_mapping_files_messages (env : Env) (cat : Catalog) (w : World) (p : Progress) :
    (download_mapping_files env cat w p).1.messages = w.messages := by
  simp [download_mapping_files, runWorkers_messages]

theorem download_mapping_files_dispatchLog (env : Env) (cat : Catalog) (w : World) (p : Progress) :
    (download_mapping_files env cat w p).1.dispatchLog
      = w.dispatchLog ++ collectMissing w.fs cat := by
  simp [download_mapping_files, runWorkers_dispatchLog]

theorem download_mapping_files_trace (env : Env) (cat : Catalog) (w : World) (p : Progress) :
    (download_mapping_files env cat w p).1.trace
      = w.trace ++ [Event.catStart cat]
        ++ (collectMissing w.fs cat).map (fun t => Event.dispatchedFile t.2)
        ++ (collectMissing w.fs cat).map (fun t => Event.completedFile t.2)
        ++ [Event.catDone cat] := by
  simp [download_mapping_files, runWorkers_trace]

/-! Lemmas about the chunked write loop. -/

theorem writeChunks_writeLog (d : String) :
    ∀ (cs : List Nat) (fs wlog : List (String × Nat)) (tr : Nat),
      (writeChunks d cs fs wlog tr).2.1 = wlog ++ cs.map (fun c => (d, c)) := by
  intro cs
  induction cs with
  | nil => intro fs wlog tr; simp [writeChunks]
  | cons c cs ih => intro fs wlog tr; simp [writeChunks, ih]

theorem writeChunks_transferred (d : String) :
    ∀ (cs : List Nat) (fs wlog : List (String × Nat)) (tr : Nat),
      (writeChunks d cs fs wlog tr).2.2 = tr + cs.sum := by
  intro cs
  induction cs with
  | nil => intro fs wlog tr; simp [writeChunks]
  | cons c cs ih => intro fs wlog tr; simp [writeChunks, ih]; omega

theorem writeChunks_fileSize (d : String) :
    ∀ (cs : List Nat) (fs wlog : List (String × Nat)) (tr k : Nat),
      fs.lookup d = some k →
      ((writeChunks d cs fs wlog tr).1).lookup d = some (k + cs.sum) := by
  intro cs
  induction cs with
  | nil => intro fs wlog tr k h; simpa [writeChunks] using h
  | cons c cs ih =>
    intro fs wlog tr k h
    simp only [writeChunks]
    have h2 : ((d, (fs.lookup d).getD 0 + c) :: fs).lookup d = some (k + c) := by
      simp [List.lookup, h]
    have h3 := ih ((d, (fs.lookup d).getD 0 + c) :: fs) (wlog ++ [(d, c)]) (tr + c) (k + c) h2
    rw [h3]
    congr 1
    simp
    omega

theorem chunkSizes_sum (n : Nat) : (chunkSizes n).sum = n := by
  unfold chunkSizes
  rcases h : (n % 1024 == 0) with _ | _
  · have h2 : n % 1024 ≠ 0 := by simpa using h
    simp [List.sum_replicate, smul_eq_mul]
    have := Nat.div_add_mod n 1024
    omega
  · have h2 : n % 1024 = 0 := by simpa using h
    simp [List.sum_replicate, smul_eq_mul, h2]
    have := Nat.div_add_mod n 1024
    omega

theorem chunkSizes_mem {n c : Nat} (h : c ∈ chunkSizes n) : 0 < c ∧ c ≤ 1024 := by
  unfold chunkSizes at h
  rcases List.mem_append.mp h with h1 | h1
  · have := List.eq_of_mem_replicate h1
    omega
  · rcases h2 : (n % 1024 == 0) with _ | _
    · rw [h2] at h1
      simp at h1
      have h3 : n % 1024 ≠ 0 := by simpa using h2
      have h4 : n % 1024 < 1024 := Nat.mod_lt _ (by omega)
      omega
    · rw [h2] at h1
      simp at h1

theorem chunkSizes_init {n c : Nat}
    (h : c ∈ (chunkSizes n).take ((chunkSizes n).length - 1)) : c = 1024 := by
  unfold chunkSizes at h
  rcases h2 : (n % 1024 == 0) with _ | _
  · rw [h2] at h
    simp only [Bool.false_eq_true, if_false] at h
    have hlen : (List.replicate (n / 1024) 1024 ++ [n % 1024]).length = n / 1024 + 1 := by
      simp
    rw [hlen] at h
    have htake : (List.replicate (n / 1024) 1024 ++ [n % 1024]).take (n / 1024 + 1 - 1)
        = List.replicate (n / 1024) 1024 := by
      have : n / 1024 + 1 - 1 = (List.replicate (n / 1024) (1024 : Nat)).length := by simp
      rw [this, List.take_left]
    rw [htake] at h
    exact List.eq_of_mem_replicate h
  · rw [h2] at h
    simp only [if_true] at h
    have := List.mem_of_mem_take h
    simp at this
    exact this.2

/-! Lemmas about directory creation. -/

theorem mkdirOne_mem_preserved {ds : List String} {x : String} (a : String) (h : x ∈ ds) :
    x ∈ mkdirOne ds a := by
  unfold mkdirOne
  split
  · exact h
  · exact List.mem_append_left _ h

theorem foldl_mkdirOne_mem_preserved {x : String} :
    ∀ (l ds : List String), x ∈ ds → x ∈ l.foldl mkdirOne ds := by
  intro l
  induction l with
  | nil => intro ds h; exact h
  | cons a l ih => intro ds h; exact ih _ (mkdirOne_mem_preserved a h)

theorem foldl_mkdirOne_mem_of_mem {x : String} :
    ∀ (l ds : List String), x ∈ l → x ∈ l.foldl mkdirOne ds := by
  intro l
  induction l with
  | nil => intro ds h; cases h
  | cons a l ih =>
    intro ds h
    rw [List.foldl_cons]
    rcases List.mem_cons.mp h with h1 | h1
    · subst h1
      apply foldl_mkdirOne_mem_preserved
      unfold mkdirOne
      split
      · next hc => exact List.mem_of_elem_eq_true hc
      · exact List.mem_append_right _ (List.mem_singleton.mpr rfl)
    · exact ih _ h1

theorem makedirs_mem_self (ds : List String) (d : String) : d ∈ makedirs ds d := by
  apply foldl_mkdirOne_mem_of_mem
  unfold ancestors
  exact List.mem_append_right _ (List.mem_singleton.mpr rfl)

theorem foldl_mkdirOne_noop :
    ∀ (l ds : List String), (∀ a ∈ l, a ∈ ds) → l.foldl mkdirOne ds = ds := by
  intro l
  induction l with
  | nil => intro ds _; rfl
  | cons a l ih =>
    intro ds h
    have hmem : a ∈ ds := h a (List.mem_cons_self a l)
    have hc : ds.contains a = true := List.elem_eq_true_of_mem hmem
    have ha : mkdirOne ds a = ds := by
      unfold mkdirOne
      rw [hc]
      simp
    rw [List.foldl_cons, ha]
    exact ih _ (fun b hb => h b (List.mem_cons_of_mem a hb))

theorem makedirs_noop (ds : List String) (d : String)
    (h : ∀ a ∈ ancestors d, a ∈ ds) : makedirs ds d = ds :=
  foldl_mkdirOne_noop _ _ h

/-! Lemmas about the missing-file collection. -/

theorem filter_map_comm {α β : Type} (j : α → β) (p : β → Bool) :
    ∀ l : List α, (l.map j).filter p = (l.filter (fun a => p (j a))).map j := by
  intro l
  induction l with
  | nil => rfl
  | cons a l ih =>
    cases h : p (j a) <;> simp [List.filter_cons, h, ih]

theorem collectMissing_cons (fs : List (String × Nat)) (e : String × List String)
    (l : Catalog) :
    collectMissing fs (e :: l)
      = ((e.2.filter (fun f => !(fsExists fs (osJoin (lookupFolder e.1) f)))).map
          (fun f => (mkUrl e.1 f, osJoin (lookupFolder e.1) f))) ++ collectMissing fs l := rfl

theorem catalogDests_cons (e : String × List String) (l : Catalog) :
    catalogDests (e :: l)
      = (e.2.map (fun f => osJoin (lookupFolder e.1) f)) ++ catalogDests l := rfl

theorem collectMissing_map_fst (fs : List (String × Nat)) :
    ∀ l : Catalog, (collectMissing fs l).map Prod.fst
      = l.flatMap (fun e =>
          (e.2.filter (fun f => !(fsExists fs (osJoin (lookupFolder e.1) f)))).map
            (fun f => mkUrl e.1 f)) := by
  intro l
  induction l with
  | nil => rfl
  | cons e l ih => simp [collectMissing, ih, List.map_map, Function.comp]

theorem collectMissing_map_snd (fs : List (String × Nat)) :
    ∀ l : Catalog, (collectMissing fs l).map Prod.snd
      = (catalogDests l).filter (fun d => !(fsExists fs d)) := by
  intro l
  induction l with
  | nil => rfl
  | cons e l ih =>
    simp only [collectMissing, catalogDests, List.map_append, List.filter_append, ih]
    congr 1
    rw [filter_map_comm]
    simp [List.map_map, Function.comp]

theorem collectMissing_nil_of_allPresent (fs : List (String × Nat)) :
    ∀ l : Catalog, allPresent fs l = true → collectMissing fs l = [] := by
  intro l
  induction l with
  | nil => intro _; rfl
  | cons e l ih =>
    intro h
    unfold allPresent at h
    unfold catalogDests at h
    rw [List.all_append] at h
    have h1 := (Bool.and_eq_true _ _).mp h
    unfold collectMissing
    rw [ih h1.2]
    have h2 : ∀ f ∈ e.2, fsExists fs (osJoin (lookupFolder e.1) f) = true := by
      intro f hf
      have := (List.all_eq_true.mp h1.1) _ (List.mem_map_of_mem _ hf)
      simpa using this
    have h3 : e.2.filter (fun f => !(fsExists fs (osJoin (lookupFolder e.1) f))) = [] := by
      apply List.filter_eq_nil_iff.mpr
      intro f hf
      simp [h2 f hf]
    rw [h3]
    rfl

/-! Lemmas about the size probe. -/

theorem probeFolder_shape (env : Env) (fs : List (String × Nat)) (rf lf : String) :
    ∀ files : List String,
      (∀ f ∈ files, fsExists fs (osJoin lf f) = false → headOk env (mkUrl rf f) = true) →
      probeFolder env fs rf lf files
        = .ok (((files.filter (fun f => !(fsExists fs (osJoin lf f)))).map
              (fun f => headVal env (mkUrl rf f))).sum,
            (files.filter (fun f => !(fsExists fs (osJoin lf f)))).map (fun f => mkUrl rf f)) := by
  intro files
  induction files with
  | nil => intro _; rfl
  | cons f rest ih =>
    intro h
    have hrest := fun g hg => h g (List.mem_cons_of_mem f hg)
    cases hex : fsExists fs (osJoin lf f) with
    | true =>
      simp only [probeFolder, hex, if_true]
      rw [ih hrest]
      simp [List.filter_cons, hex]
    | false =>
      have hok := h f (List.mem_cons_self f rest) hex
      unfold headOk at hok
      cases henv : env.headResp (mkUrl rf f) with
      | error e => rw [henv] at hok; simp at hok
      | ok hdr =>
        simp only [probeFolder, hex, Bool.false_eq_true, if_false, henv]
        rw [ih hrest]
        simp [List.filter_cons, hex, headVal, henv]

theorem probeCatalog_shape (env : Env) (fs : List (String × Nat)) :
    ∀ l : Catalog,
      (∀ t ∈ collectMissing fs l, headOk env t.1 = true) →
      probeCatalog env fs l
        = .ok (((collectMissing fs l).map (fun t => headVal env t.1)).sum,
            (collectMissing fs l).map Prod.fst) := by
  intro l
  induction l with
  | nil => intro _; rfl
  | cons e l ih =>
    intro h
    have hhead : ∀ f ∈ e.2, fsExists fs (osJoin (lookupFolder e.1) f) = false →
        headOk env (mkUrl e.1 f) = true := by
      intro f hf hmiss
      apply h (mkUrl e.1 f, osJoin (lookupFolder e.1) f)
      unfold collectMissing
      apply List.mem_append_left
      apply List.mem_map_of_mem
      rw [List.mem_filter]
      exact ⟨hf, by simp [hmiss]⟩
    have hrest : ∀ t ∈ collectMissing fs l, headOk env t.1 = true := by
      intro t ht
      apply h t
      unfold collectMissing
      exact List.mem_append_right _ ht
    obtain ⟨rf, files⟩ := e
    simp only [probeCatalog]
    rw [probeFolder_shape env fs rf (lookupFolder rf) files hhead, ih hrest]
    rw [collectMissing_cons]
    simp only [List.map_append, List.map_map, List.sum_append]
    rfl

theorem get_file_size_if_missing_ok_world {env : Env} {l : Catalog} {w : World}
    {t : Nat} {w2 : World} (h : get_file_size_if_missing env l w = .ok (t, w2)) :
    ∃ hl, w2 = { w with headLog := hl } := by
  unfold get_file_size_if_missing at h
  cases hp : probeCatalog env w.fs l with
  | error e => rw [hp] at h; cases h
  | ok r =>
    obtain ⟨t0, log⟩ := r
    rw [hp] at h
    simp only [Except.ok.injEq, Prod.mk.injEq] at h
    exact ⟨w.headLog ++ log, h.2.symm⟩

theorem calculate_total_size_ok_world {env : Env} {pc : Catalog} {models exe : Bool}
    {w : World} {t : Nat} {w2 : World}
    (h : calculate_total_size env pc models exe w = .ok (t, w2)) :
    ∃ hl, w2 = { w with headLog := hl } := by
  unfold calculate_total_size at h
  have last : ∀ (we : World), (∃ hl, we = { w with headLog := hl }) →
      ∀ (tm te : Nat),
      ((match get_file_size_if_missing env pc we with
      | .error e => .error e
      | .ok (tp, wp) => .ok (tm + te + tp, wp) : Except Unit (Nat × World)) = .ok (t, w2)) →
      ∃ hl, w2 = { w with headLog := hl } := by
    intro we hwe tm te hlast
    obtain ⟨le, hle⟩ := hwe
    cases h4 : get_file_size_if_missing env pc we with
    | error e =>
      rw [h4] at hlast
      have hx : (Except.error e : Except Unit (Nat × World)) = .ok (t, w2) := hlast
      cases hx
    | ok r4 =>
      obtain ⟨t4, w4⟩ := r4
      obtain ⟨l4, hw4⟩ := get_file_size_if_missing_ok_world h4
      rw [h4] at hlast
      have hx : (Except.ok (tm + te + t4, w4) : Except Unit (Nat × World)) = .ok (t, w2) := hlast
      simp only [Except.ok.injEq, Prod.mk.injEq] at hx
      refine ⟨l4, ?_⟩
      rw [← hx.2, hw4, hle]
  have tail : ∀ (wm : World), (∃ hl, wm = { w with headLog := hl }) →
      ∀ (tm : Nat),
      ((match (if exe && (env.osName == "nt") then
          get_file_size_if_missing env executables_list wm
        else .ok (0, wm) : Except Unit (Nat × World)) with
      | .error e => .error e
      | .ok (te, we) =>
        match get_file_size_if_missing env pc we with
        | .error e => .error e
        | .ok (tp, wp) => .ok (tm + te + tp, wp) : Except Unit (Nat × World)) = .ok (t, w2)) →
      ∃ hl, w2 = { w with headLog := hl } := by
    intro wm hwm tm htail
    obtain ⟨lm, hlm⟩ := hwm
    cases hexe : exe && (env.osName == "nt") with
    | false =>
      rw [hexe] at htail
      exact last wm ⟨lm, hlm⟩ tm 0 htail
    | true =>
      rw [hexe] at htail
      cases h3 : get_file_size_if_missing env executables_list wm with
      | error e =>
        rw [h3] at htail
        have hx : (Except.error e : Except Unit (Nat × World)) = .ok (t, w2) := htail
        cases hx
      | ok r3 =>
        obtain ⟨t3, w3⟩ := r3
        obtain ⟨l3, hw3⟩ := get_file_size_if_missing_ok_world h3
        rw [h3] at htail
        exact last w3 ⟨l3, by rw [hw3, hlm]⟩ tm t3 htail
  cases models with
  | false => exact tail w ⟨w.headLog, rfl⟩ 0 h
  | true =>
    have fromEmb : ∀ (w1 : World), (∃ hl, w1 = { w with headLog := hl }) →
        ∀ (t1 : Nat),
        ((match (match get_file_size_if_missing env embedders_list w1 with
            | .error e => .error e
            | .ok (t2, w2x) => .ok (t1 + t2, w2x) : Except Unit (Nat × World)) with
        | .error e => .error e
        | .ok (tm, wm) =>
          (match (if exe && (env.osName == "nt") then
              get_file_size_if_missing env executables_list wm
            else .ok (0, wm) : Except Unit (Nat × World)) with
          | .error e => .error e
          | .ok (te, we) =>
            match get_file_size_if_missing env pc we with
            | .error e => .error e
            | .ok (tp, wp) => .ok (tm + te + tp, wp)) : Except Unit (Nat × World)) = .ok (t, w2)) →
        ∃ hl, w2 = { w with headLog := hl } := by
      intro w1 hw1 t1 hfe
      obtain ⟨l1, hl1⟩ := hw1
      cases h2 : get_file_size_if_missing env embedders_list w1 with
      | error e =>
        rw [h2] at hfe
        have hx : (Except.error e : Except Unit (Nat × World)) = .ok (t, w2) := hfe
        cases hx
      | ok r2 =>
        obtain ⟨t2, w2x⟩ := r2
        obtain ⟨l2, hw2⟩ := get_file_size_if_missing_ok_world h2
        rw [h2] at hfe
        exact tail w2x ⟨l2, by rw [hw2, hl1]⟩ (t1 + t2) hfe
    cases h1 : get_file_size_if_missing env models_list w with
    | error e =>
      rw [h1] at h
      have hx : (Except.error e : Except Unit (Nat × World)) = .ok (t, w2) := h
      cases hx
    | ok r1 =>
      obtain ⟨t1, w1⟩ := r1
      obtain ⟨l1, hw1⟩ := get_file_size_if_missing_ok_world h1
      rw [h1] at h
      exact fromEmb w1 ⟨l1, hw1⟩ t1 h

/-! Lemmas about the f0 split. -/

theorem split_pretraineds_cons_fst (folder : String) (files : List String) (l : Catalog) :
    (split_pretraineds ((folder, files) :: l)).1
      = (if (files.filter (fun f => strStartsWith f "f0")).isEmpty
          then (split_pretraineds l).1
          else (folder, files.filter (fun f => strStartsWith f "f0"))
            :: (split_pretraineds l).1) := rfl

theorem split_pretraineds_cons_snd (folder : String) (files : List String) (l : Catalog) :
    (split_pretraineds ((folder, files) :: l)).2
      = (if (files.filter (fun f => !(strStartsWith f "f0"))).isEmpty
          then (split_pretraineds l).2
          else (folder, files.filter (fun f => !(strStartsWith f "f0")))
            :: (split_pretraineds l).2) := rfl

theorem folderFiles_cons (folder : String) (e : String × List String) (l : Catalog) :
    folderFiles folder (e :: l)
      = (if e.1 == folder then e.2 else []) ++ folderFiles folder l := rfl

theorem split_pretraineds_fst_folderFiles (folder : String) :
    ∀ l : Catalog, folderFiles folder (split_pretraineds l).1
      = (folderFiles folder l).filter (fun f => strStartsWith f "f0") := by
  intro l
  induction l with
  | nil => rfl
  | cons e l ih =>
    obtain ⟨fo, files⟩ := e
    rw [split_pretraineds_cons_fst, folderFiles_cons, List.filter_append]
    split
    · next hemp =>
      have hnil : files.filter (fun f => strStartsWith f "f0") = [] :=
        List.isEmpty_iff.mp hemp
      cases hfo : (fo == folder) <;> simp [hfo, hnil, ih]
    · next hemp =>
      rw [folderFiles_cons, ih]
      cases hfo : (fo == folder) <;> simp [hfo]

theorem split_pretraineds_snd_folderFiles (folder : String) :
    ∀ l : Catalog, folderFiles folder (split_pretraineds l).2
      = (folderFiles folder l).filter (fun f => !(strStartsWith f "f0")) := by
  intro l
  induction l with
  | nil => rfl
  | cons e l ih =>
    obtain ⟨fo, files⟩ := e
    rw [split_pretraineds_cons_snd, folderFiles_cons, List.filter_append]
    split
    · next hemp =>
      have hnil : files.filter (fun f => !(strStartsWith f "f0")) = [] :=
        List.isEmpty_iff.mp hemp
      cases hfo : (fo == folder) <;> simp [hfo, hnil, ih]
    · next hemp =>
      rw [folderFiles_cons, ih]
      cases hfo : (fo == folder) <;> simp [hfo]

theorem split_pretraineds_fst_entries :
    ∀ l : Catalog, ∀ e ∈ (split_pretraineds l).1,
      e.2 ≠ [] ∧ ∀ f ∈ e.2, strStartsWith f "f0" = true := by
  intro l
  induction l with
  | nil => intro e he; cases he
  | cons a l ih =>
    obtain ⟨fo, files⟩ := a
    intro e he
    rw [split_pretraineds_cons_fst] at he
    split at he
    · exact ih e he
    · next hemp =>
      rcases List.mem_cons.mp he with h1 | h1
      · subst h1
        constructor
        · intro hx
          have hx2 : files.filter (fun f => strStartsWith f "f0") = [] := hx
          rw [hx2] at hemp
          simp at hemp
        · intro f hf
          have hf2 : f ∈ files.filter (fun f => strStartsWith f "f0") := hf
          exact (List.mem_filter.mp hf2).2
      · exact ih e h1

theorem split_pretraineds_snd_entries :
    ∀ l : Catalog, ∀ e ∈ (split_pretraineds l).2,
      e.2 ≠ [] ∧ ∀ f ∈ e.2, strStartsWith f "f0" = false := by
  intro l
  induction l with
  | nil => intro e he; cases he
  | cons a l ih =>
    obtain ⟨fo, files⟩ := a
    intro e he
    rw [split_pretraineds_cons_snd] at he
    split at he
    · exact ih e he
    · next hemp =>
      rcases List.mem_cons.mp he with h1 | h1
      · subst h1
        constructor
        · intro hx
          have hx2 : files.filter (fun f => !(strStartsWith f "f0")) = [] := hx
          rw [hx2] at hemp
          simp at hemp
        · intro f hf
          have hf2 : f ∈ files.filter (fun f => !(strStartsWith f "f0")) := hf
          simpa using (List.mem_filter.mp hf2).2
      · exact ih e h1

theorem split_pretraineds_of_all_f0 :
    ∀ l : Catalog, (∀ e ∈ l, e.2 ≠ [] ∧ ∀ f ∈ e.2, strStartsWith f "f0" = true) →
      split_pretraineds l = (l, []) := by
  intro l
  induction l with
  | nil => intro _; rfl
  | cons a l ih =>
    intro h
    obtain ⟨fo, files⟩ := a
    have ha := h (fo, files) (List.mem_cons_self _ _)
    have hall : ∀ f ∈ files, strStartsWith f "f0" = true := ha.2
    have hfilter : files.filter (fun f => strStartsWith f "f0") = files :=
      List.filter_eq_self.mpr (fun f hf => hall f hf)
    have hnonf : files.filter (fun f => !(strStartsWith f "f0")) = [] :=
      List.filter_eq_nil_iff.mpr (fun f hf => by simp [hall f hf])
    have hrest := ih (fun e he => h e (List.mem_cons_of_mem _ he))
    have hne : files.isEmpty = false := by
      cases hf : files.isEmpty with
      | true => exact absurd (List.isEmpty_iff.mp hf) ha.1
      | false => rfl
    have h1 : (split_pretraineds ((fo, files) :: l)).1 = (fo, files) :: l := by
      rw [split_pretraineds_cons_fst, hfilter, hne, hrest]
      simp
    have h2 : (split_pretraineds ((fo, files) :: l)).2 = [] := by
      rw [split_pretraineds_cons_snd, hnonf, hrest]
      simp
    exact Prod.ext h1 h2

/-! Error propagation of the size probe. -/

theorem probeFolder_error (env : Env) (fs : List (String × Nat)) (rf lf : String) :
    ∀ (files : List String) (f : String), f ∈ files →
      fsExists fs (osJoin lf f) = false → headOk env (mkUrl rf f) = false →
      probeFolder env fs rf lf files = .error () := by
  intro files
  induction files with
  | nil => intro f hf; cases hf
  | cons g rest ih =>
    intro f hf hmiss hhead
    rcases List.mem_cons.mp hf with h1 | h1
    · subst h1
      simp only [probeFolder, hmiss, Bool.false_eq_true, if_false]
      unfold headOk at hhead
      cases henv : env.headResp (mkUrl rf f) with
      | error e => cases e; rfl
      | ok hdr => rw [henv] at hhead; simp at hhead
    · cases hex : fsExists fs (osJoin lf g) with
      | true =>
        simp only [probeFolder, hex, if_true]
        exact ih f h1 hmiss hhead
      | false =>
        simp only [probeFolder, hex, Bool.false_eq_true, if_false]
        cases henv : env.headResp (mkUrl rf g) with
        | error e => cases e; rfl
        | ok hdr => rw [ih f h1 hmiss hhead]

theorem probeCatalog_error (env : Env) (fs : List (String × Nat)) :
    ∀ (l : Catalog) (e : String × List String) (f : String), e ∈ l → f ∈ e.2 →
      fsExists fs (osJoin (lookupFolder e.1) f) = false →
      headOk env (mkUrl e.1 f) = false →
      probeCatalog env fs l = .error () := by
  intro l
  induction l with
  | nil => intro e f he; cases he
  | cons a l ih =>
    intro e f he hf hmiss hhead
    obtain ⟨rf, files⟩ := a
    rcases List.mem_cons.mp he with h1 | h1
    · subst h1
      simp only [probeCatalog]
      rw [probeFolder_error env fs rf (lookupFolder rf) files f hf hmiss hhead]
    · simp only [probeCatalog]
      cases hpf : probeFolder env fs rf (lookupFolder rf) files with
      | error e2 => cases e2; rfl
      | ok r =>
        obtain ⟨t1, log1⟩ := r
        rw [ih e f h1 hf hmiss hhead]

/-! The claims. -/

/-- C4: for every input catalog, `split_pretraineds` places every filename of
a folder into exactly one of its two outputs, into the f0 output exactly when
the name starts with "f0", preserving the original relative order within the
folder and neither dropping nor duplicating a filename. -/
theorem split_pretraineds_partition (l : Catalog) (folder : String) :
    folderFiles folder (split_pretraineds l).1
      = (folderFiles folder l).filter (fun f => strStartsWith f "f0")
    ∧ folderFiles folder (split_pretraineds l).2
      = (folderFiles folder l).filter (fun f => !(strStartsWith f "f0"))
    ∧ (folderFiles folder (split_pretraineds l).1
        ++ folderFiles folder (split_pretraineds l).2).Perm (folderFiles folder l)
    ∧ (∀ f, f ∈ folderFiles folder (split_pretraineds l).1
        ↔ f ∈ folderFiles folder l ∧ strStartsWith f "f0" = true)
    ∧ (∀ f, f ∈ folderFiles folder (split_pretraineds l).2
        ↔ f ∈ folderFiles folder l ∧ strStartsWith f "f0" = false)
    ∧ (folderFiles folder (split_pretraineds l).1).Sublist (folderFiles folder l)
    ∧ (folderFiles folder (split_pretraineds l).2).Sublist (folderFiles folder l) := by
  refine ⟨split_pretraineds_fst_folderFiles folder l,
    split_pretraineds_snd_folderFiles folder l, ?_, ?_, ?_, ?_, ?_⟩
  · rw [split_pretraineds_fst_folderFiles, split_pretraineds_snd_folderFiles]
    exact List.filter_append_perm _ _
  · intro f
    rw [split_pretraineds_fst_folderFiles]
    simp [List.mem_filter]
  · intro f
    rw [split_pretraineds_snd_folderFiles]
    simp [List.mem_filter]
  · rw [split_pretraineds_fst_folderFiles]
    exact List.filter_sublist _
  · rw [split_pretraineds_snd_folderFiles]
    exact List.filter_sublist _

/-- C10: `split_pretraineds` never emits an entry with an empty filename list,
and it is idempotent on its first component: splitting the f0 output again
returns it unchanged with an empty non-f0 output. -/
theorem split_pretraineds_no_empty_and_idempotent (l : Catalog) :
    (∀ e ∈ (split_pretraineds l).1, e.2 ≠ [])
    ∧ (∀ e ∈ (split_pretraineds l).2, e.2 ≠ [])
    ∧ split_pretraineds (split_pretraineds l).1 = ((split_pretraineds l).1, []) := by
  refine ⟨fun e he => (split_pretraineds_fst_entries l e he).1,
    fun e he => (split_pretraineds_snd_entries l e he).1, ?_⟩
  exact split_pretraineds_of_all_f0 _ (split_pretraineds_fst_entries l)

/-- Witness for C10 on a concrete catalog with a mixed and an all-f0 folder. -/
def catalogW : Catalog := [("pretrained_v2/", ["f0a", "b"]), ("x/", ["f0c"])]

theorem split_pretraineds_no_empty_and_idempotent_witness :
    (("pretrained_v2/", ["f0a"]) : String × List String).2 ≠ []
    ∧ split_pretraineds (split_pretraineds catalogW).1 = ((split_pretraineds catalogW).1, []) := by
  have h := split_pretraineds_no_empty_and_idempotent catalogW
  exact ⟨h.1 ("pretrained_v2/", ["f0a"]) (by decide), h.2.2⟩

/-- C3: the size probe returns the summed reported content lengths of exactly
the missing files, issues one HEAD request per missing file (and none for
present files), counts a missing content-length header as 0 (`headVal`), and
changes nothing in the world apart from appending those HEAD requests to the
request log; in particular it creates no files. -/
theorem get_file_size_if_missing_spec (env : Env) (w : World) (l : Catalog)
    (h : ∀ t ∈ collectMissing w.fs l, headOk env t.1 = true) :
    get_file_size_if_missing env l w
      = .ok (((collectMissing w.fs l).map (fun t => headVal env t.1)).sum,
          { w with headLog := w.headLog ++ (collectMissing w.fs l).map Prod.fst }) := by
  unfold get_file_size_if_missing
  rw [probeCatalog_shape env w.fs l h]

/-- Witness for C3: three files, one present, two HEAD requests, one header
missing and counted as 0. -/
theorem get_file_size_if_missing_spec_witness :
    get_file_size_if_missing env3 catalog3 (initWorld fs3)
      = .ok (100, { initWorld fs3 with
          headLog := [mkUrl "predictors/" "a.pt", mkUrl "predictors/" "c.pt"] }) := by
  have h := get_file_size_if_missing_spec env3 (initWorld fs3) catalog3 (by decide)
  exact h.trans (by rfl)

/-- C7: when the catalog has unique destination paths, the destination paths
of the workers submitted to the pool by one `download_mapping_files` run
contain no duplicates. -/
theorem download_mapping_files_unique_dests (env : Env) (cat : Catalog)
    (fs : List (String × Nat)) (p : Progress) (h : (catalogDests cat).Nodup) :
    (((download_mapping_files env cat (initWorld fs) p).1).dispatchLog.map Prod.snd).Nodup := by
  rw [download_mapping_files_dispatchLog]
  have h0 : (initWorld fs).dispatchLog = [] := rfl
  rw [h0, List.nil_append, collectMissing_map_snd]
  exact h.filter _

/-- Witness for C7 on the concrete models catalog. -/
theorem download_mapping_files_unique_dests_witness :
    (((download_mapping_files env100 models_list (initWorld []) progress0).1).dispatchLog.map
      Prod.snd).Nodup :=
  download_mapping_files_unique_dests env100 models_list [] progress0 (by decide)

/-- C8: a network error on a single HEAD request during size probing is not
caught: if any missing file of the catalog has a failing HEAD request, the
probe raises, and a raising models probe makes the whole
`calculate_total_size` raise rather than degrade the contribution to 0. -/
theorem probe_head_error_propagates :
    (∀ (env : Env) (w : World) (l : Catalog) (e : String × List String) (f : String),
        e ∈ l → f ∈ e.2 → fsExists w.fs (osJoin (lookupFolder e.1) f) = false →
        headOk env (mkUrl e.1 f) = false →
        get_file_size_if_missing env l w = .error ())
    ∧ (∀ (env : Env) (pc : Catalog) (exe : Bool) (w : World),
        get_file_size_if_missing env models_list w = .error () →
        calculate_total_size env pc true exe w = .error ()) := by
  constructor
  · intro env w l e f he hf hmiss hhead
    unfold get_file_size_if_missing
    rw [probeCatalog_error env w.fs l e f he hf hmiss hhead]
  · intro env pc exe w h
    unfold calculate_total_size
    rw [h]
    rfl

/-- Witness for C8: the all-failing server makes the probe and the total-size
computation raise. -/
theorem probe_head_error_propagates_witness :
    get_file_size_if_missing envErr models_list (initWorld []) = .error ()
    ∧ calculate_total_size envErr [] true false (initWorld []) = .error () := by
  have h := probe_head_error_propagates
  have h1 := h.1 envErr (initWorld []) models_list ("predictors/", ["rmvpe.pt", "fcpe.pt"])
    "rmvpe.pt" (by decide) (by decide) (by decide) (by decide)
  exact ⟨h1, h.2 envErr [] false (initWorld []) h1⟩

/-- C9: the fetch worker first ensures the destination's parent directory
exists (creating it, ancestors included, and changing nothing when it already
exists), opens exactly one streaming GET to the URL, writes the body to the
destination in 1024-byte chunks (every chunk positive and at most 1024 bytes,
all but the last exactly 1024), advancing the tracker once per chunk write,
so that on return the file holds the whole body and the tracker advanced by
exactly the number of bytes written. -/
theorem download_file_spec (env : Env) (url destination_path : String)
    (w : World) (p : Progress) :
    ((dirname destination_path == "") = false →
      dirname destination_path ∈ (download_file env url destination_path w p).1.dirs)
    ∧ ((∀ a ∈ ancestors (dirname destination_path), a ∈ w.dirs) →
        (download_file env url destination_path w p).1.dirs = w.dirs)
    ∧ (download_file env url destination_path w p).1.getLog = w.getLog ++ [url]
    ∧ fileSize (download_file env url destination_path w p).1.fs destination_path
        = some (env.getResp url).bodyLen
    ∧ (download_file env url destination_path w p).1.writeLog
        = w.writeLog ++ (chunkSizes (env.getResp url).bodyLen).map
            (fun c => (destination_path, c))
    ∧ (download_file env url destination_path w p).2.transferred
        = p.transferred + (env.getResp url).bodyLen
    ∧ (∀ c ∈ chunkSizes (env.getResp url).bodyLen, 0 < c ∧ c ≤ 1024)
    ∧ (∀ c ∈ (chunkSizes (env.getResp url).bodyLen).take
          ((chunkSizes (env.getResp url).bodyLen).length - 1), c = 1024) := by
  refine ⟨?_, ?_, rfl, ?_, ?_, ?_, fun c hc => chunkSizes_mem hc, fun c hc => chunkSizes_init hc⟩
  · intro hd
    show dirname destination_path ∈ (if dirname destination_path == "" then w.dirs
      else makedirs w.dirs (dirname destination_path))
    rw [hd]
    simp only [Bool.false_eq_true, if_false]
    exact makedirs_mem_self w.dirs (dirname destination_path)
  · intro hanc
    show (if dirname destination_path == "" then w.dirs
      else makedirs w.dirs (dirname destination_path)) = w.dirs
    cases hd : (dirname destination_path == "") with
    | true => simp
    | false =>
      simp only [Bool.false_eq_true, if_false]
      exact makedirs_noop _ _ hanc
  · show fileSize (writeChunks destination_path (chunkSizes (env.getResp url).bodyLen)
        ((destination_path, 0) :: w.fs) w.writeLog p.transferred).1 destination_path
      = some (env.getResp url).bodyLen
    unfold fileSize
    have h0 : ((destination_path, 0) :: w.fs).lookup destination_path = some 0 := by
      simp [List.lookup]
    rw [writeChunks_fileSize destination_path (chunkSizes (env.getResp url).bodyLen)
      ((destination_path, 0) :: w.fs) w.writeLog p.transferred 0 h0]
    rw [chunkSizes_sum]
    simp
  · show (writeChunks destination_path (chunkSizes (env.getResp url).bodyLen)
        ((destination_path, 0) :: w.fs) w.writeLog p.transferred).2.1
      = w.writeLog ++ (chunkSizes (env.getResp url).bodyLen).map (fun c => (destination_path, c))
    rw [writeChunks_writeLog]
  · show (writeChunks destination_path (chunkSizes (env.getResp url).bodyLen)
        ((destination_path, 0) :: w.fs) w.writeLog p.transferred).2.2
      = p.transferred + (env.getResp url).bodyLen
    rw [writeChunks_transferred, chunkSizes_sum]

/-- World with an already existing directory, used to witness C9. -/
def worldDirA : World := { initWorld [] with dirs := ["a"] }

/-- Witness for C9: downloading 100 declared-and-served bytes into `a/b.bin`
with the parent directory already present. -/
theorem download_file_spec_witness :
    dirname "a/b.bin" ∈ (download_file env100 "u" "a/b.bin" worldDirA progress0).1.dirs
    ∧ (download_file env100 "u" "a/b.bin" worldDirA progress0).1.dirs = worldDirA.dirs
    ∧ (download_file env100 "u" "a/b.bin" worldDirA progress0).1.getLog
        = worldDirA.getLog ++ ["u"]
    ∧ fileSize (download_file env100 "u" "a/b.bin" worldDirA progress0).1.fs "a/b.bin"
        = some 100
    ∧ (download_file env100 "u" "a/b.bin" worldDirA progress0).2.transferred = 100 := by
  have h := download_file_spec env100 "u" "a/b.bin" worldDirA progress0
  refine ⟨h.1 (by decide), h.2.1 (by decide), h.2.2.1, h.2.2.2.1, ?_⟩
  exact (h.2.2.2.2.2.1).trans (by rfl)

/-! Evaluation of the probe when nothing is missing. -/

theorem get_file_size_if_missing_nil (env : Env) (w : World) :
    get_file_size_if_missing env [] w = .ok (0, w) := by
  unfold get_file_size_if_missing
  show Except.ok (0, { w with headLog := w.headLog ++ [] }) = .ok (0, w)
  simp

theorem get_file_size_if_missing_allPresent (env : Env) (w : World) (l : Catalog)
    (h : allPresent w.fs l = true) :
    get_file_size_if_missing env l w = .ok (0, w) := by
  have hc := collectMissing_nil_of_allPresent w.fs l h
  unfold get_file_size_if_missing
  rw [probeCatalog_shape env w.fs l (by rw [hc]; intro t ht; cases ht), hc]
  show Except.ok ((([] : List (String × String)).map (fun t => headVal env t.1)).sum,
    { w with headLog := w.headLog ++ (([] : List (String × String)).map Prod.fst) }) = .ok (0, w)
  simp

theorem calculate_total_size_eval (env : Env) (pc : Catalog) (models exe : Bool) (w : World)
    (hmod : models = true → get_file_size_if_missing env models_list w = .ok (0, w)
      ∧ get_file_size_if_missing env embedders_list w = .ok (0, w))
    (hexe : (exe && (env.osName == "nt")) = true →
      get_file_size_if_missing env executables_list w = .ok (0, w))
    (hpc : get_file_size_if_missing env pc w = .ok (0, w)) :
    calculate_total_size env pc models exe w = .ok (0, w) := by
  unfold calculate_total_size
  have tail2 : ∀ tm : Nat, tm = 0 →
      ((match (if exe && (env.osName == "nt") then
          get_file_size_if_missing env executables_list w
        else .ok (0, w) : Except Unit (Nat × World)) with
      | .error e => .error e
      | .ok (te, we) =>
        match get_file_size_if_missing env pc we with
        | .error e => .error e
        | .ok (tp, wp) => .ok (tm + te + tp, wp) : Except Unit (Nat × World)) = .ok (0, w)) := by
    intro tm htm
    subst htm
    cases hx : exe && (env.osName == "nt") with
    | false =>
      show (match get_file_size_if_missing env pc w with
        | .error e => .error e
        | .ok (tp, wp) => .ok (0 + 0 + tp, wp) : Except Unit (Nat × World)) = .ok (0, w)
      rw [hpc]
    | true =>
      show (match get_file_size_if_missing env executables_list w with
        | .error e => .error e
        | .ok (te, we) =>
          match get_file_size_if_missing env pc we with
          | .error e => .error e
          | .ok (tp, wp) => .ok (0 + te + tp, wp) : Except Unit (Nat × World)) = .ok (0, w)
      rw [hexe hx]
      show (match get_file_size_if_missing env pc w with
        | .error e => .error e
        | .ok (tp, wp) => .ok (0 + 0 + tp, wp) : Except Unit (Nat × World)) = .ok (0, w)
      rw [hpc]
  cases models with
  | false => exact tail2 0 rfl
  | true =>
    obtain ⟨gm, gemb⟩ := hmod rfl
    rw [gm]
    show (match (match get_file_size_if_missing env embedders_list w with
        | .error e => .error e
        | .ok (t2, w2x) => .ok (0 + t2, w2x) : Except Unit (Nat × World)) with
      | .error e => .error e
      | .ok (tm, wm) =>
        (match (if exe && (env.osName == "nt") then
            get_file_size_if_missing env executables_list wm
          else .ok (0, wm) : Except Unit (Nat × World)) with
        | .error e => .error e
        | .ok (te, we) =>
          match get_file_size_if_missing env pc we with
          | .error e => .error e
          | .ok (tp, wp) => .ok (tm + te + tp, wp)) : Except Unit (Nat × World)) = .ok (0, w)
    rw [gemb]
    exact tail2 (0 + 0) rfl

/-- C2: when every selected file already exists at its destination (the state
a fully successful first run leaves behind), a second run computes a total of
0, performs no GET requests, dispatches no workers, and only prints the
nothing-to-do message: the run returns the input world with only that message
appended, so every request log is untouched. -/
theorem pipeline_idempotent_second_run (env : Env) (fs : List (String × Nat))
    (pret models exe : Bool) (p : Progress)
    (hm : models = true → allPresent fs models_list = true ∧ allPresent fs embedders_list = true)
    (he : exe = true → (env.osName == "nt") = true → allPresent fs executables_list = true)
    (hp : pret = true → allPresent fs pretraineds_hifigan_list = true) :
    calculate_total_size env (if pret then pretraineds_hifigan_list else []) models exe
        (initWorld fs) = .ok (0, initWorld fs)
    ∧ prequisites_download_pipeline env pret models exe (initWorld fs) p
      = .ok ({ initWorld fs with messages := ["All files are already downloaded."] }, p) := by
  have hcalc : calculate_total_size env (if pret then pretraineds_hifigan_list else [])
      models exe (initWorld fs) = .ok (0, initWorld fs) := by
    apply calculate_total_size_eval
    · intro hmt
      exact ⟨get_file_size_if_missing_allPresent env (initWorld fs) models_list (hm hmt).1,
        get_file_size_if_missing_allPresent env (initWorld fs) embedders_list (hm hmt).2⟩
    · intro hx
      have hx2 := Bool.and_eq_true_iff.mp hx
      exact get_file_size_if_missing_allPresent env (initWorld fs) executables_list
        (he hx2.1 hx2.2)
    · cases pret with
      | false => exact get_file_size_if_missing_nil env (initWorld fs)
      | true =>
        exact get_file_size_if_missing_allPresent env (initWorld fs) pretraineds_hifigan_list
          (hp rfl)
  refine ⟨hcalc, ?_⟩
  unfold prequisites_download_pipeline
  rw [hcalc]
  rfl

/-- Witness for C2: on a filesystem holding every catalog file, a Windows run
with every category selected probes a total of 0 and only prints the
nothing-to-do message. -/
theorem pipeline_idempotent_second_run_witness :
    calculate_total_size envNt100 (if true then pretraineds_hifigan_list else []) true true
        (initWorld fsAll) = .ok (0, initWorld fsAll)
    ∧ prequisites_download_pipeline envNt100 true true true (initWorld fsAll) progress0
      = .ok ({ initWorld fsAll with messages := ["All files are already downloaded."] },
          progress0) :=
  pipeline_idempotent_second_run envNt100 fsAll true true true progress0
    (fun _ => ⟨by decide, by decide⟩) (fun _ _ => by decide) (fun _ => by decide)

/-! Lemmas about the trace of a run with a positive total. -/

theorem filter_isLabel_map_dispatched (ts : List (String × String)) :
    (ts.map (fun t => Event.dispatchedFile t.2)).filter isLabel = [] := by
  induction ts with
  | nil => rfl
  | cons t ts ih => simp [List.filter_cons, isLabel, ih]

theorem filter_isLabel_map_completed (ts : List (String × String)) :
    (ts.map (fun t => Event.completedFile t.2)).filter isLabel = [] := by
  induction ts with
  | nil => rfl
  | cons t ts ih => simp [List.filter_cons, isLabel, ih]

theorem download_mapping_files_trace_filter (env : Env) (cat : Catalog) (w : World)
    (p : Progress) :
    (((download_mapping_files env cat w p).1).trace).filter isLabel
      = w.trace.filter isLabel := by
  rw [download_mapping_files_trace]
  simp [List.filter_append, filter_isLabel_map_dispatched, filter_isLabel_map_completed,
    List.filter_cons, isLabel]

theorem batchCats_of_map {x : Except Unit (World × Progress)} {v : List Catalog}
    (h : x.map (fun r => r.1.batches.map Prod.fst) = .ok v) : batchCats x = v := by
  cases x with
  | error e => simp [Except.map] at h
  | ok r =>
    simp only [Except.map, Except.ok.injEq] at h
    simpa [batchCats] using h

theorem runMessages_of_map {x : Except Unit (World × Progress)} {v : List String}
    (h : x.map (fun r => r.1.messages) = .ok v) : runMessages x = v := by
  cases x with
  | error e => simp [Except.map] at h
  | ok r =>
    simp only [Except.map, Except.ok.injEq] at h
    simpa [runMessages] using h

theorem pipeline_pos_batches (env : Env) (pret models exe : Bool) (fs : List (String × Nat))
    (p : Progress) (t : Nat) (w0 : World)
    (hc : calculate_total_size env (if pret then pretraineds_hifigan_list else []) models exe
      (initWorld fs) = .ok (t, w0)) (ht : 0 < t) :
    (prequisites_download_pipeline env pret models exe (initWorld fs) p).map
        (fun r => r.1.batches.map Prod.fst)
      = .ok ((if models then [models_list, embedders_list] else [])
          ++ (if exe && (env.osName == "nt") then [executables_list] else [])
          ++ (if pret then [pretraineds_hifigan_list] else [])) := by
  obtain ⟨hl, hw0⟩ := calculate_total_size_ok_world hc
  unfold prequisites_download_pipeline
  rw [hc, hw0]
  cases models <;> cases hos : env.osName == "nt" <;> cases exe <;> cases pret <;>
    simp [ht, hos, Except.map, download_mapping_files_batches, initWorld]

theorem pipeline_pos_messages (env : Env) (pret models exe : Bool) (fs : List (String × Nat))
    (p : Progress) (t : Nat) (w0 : World)
    (hc : calculate_total_size env (if pret then pretraineds_hifigan_list else []) models exe
      (initWorld fs) = .ok (t, w0)) (ht : 0 < t) :
    (prequisites_download_pipeline env pret models exe (initWorld fs) p).map
        (fun r => r.1.messages)
      = .ok (if exe && !(env.osName == "nt") then ["No executables needed"] else []) := by
  obtain ⟨hl, hw0⟩ := calculate_total_size_ok_world hc
  unfold prequisites_download_pipeline
  rw [hc, hw0]
  cases models <;> cases hos : env.osName == "nt" <;> cases exe <;> cases pret <;>
    simp [ht, hos, Except.map, download_mapping_files_messages, initWorld]

theorem pipeline_pos_final (env : Env) (pret models exe : Bool) (fs : List (String × Nat))
    (p : Progress) (t : Nat) (w0 : World)
    (hc : calculate_total_size env (if pret then pretraineds_hifigan_list else []) models exe
      (initWorld fs) = .ok (t, w0)) (ht : 0 < t) :
    (prequisites_download_pipeline env pret models exe (initWorld fs) p).map
        (fun r => (r.2.description, r.2.stopped))
      = .ok ("[bold green]Download Complete!", true) := by
  unfold prequisites_download_pipeline
  rw [hc]
  cases models <;> cases hos : env.osName == "nt" <;> cases exe <;> cases pret <;>
    simp [ht, hos, Except.map]

theorem pipeline_pos_label (env : Env) (pret models exe : Bool) (fs : List (String × Nat))
    (p : Progress) (t : Nat) (w0 : World)
    (hc : calculate_total_size env (if pret then pretraineds_hifigan_list else []) models exe
      (initWorld fs) = .ok (t, w0)) (ht : 0 < t) :
    (prequisites_download_pipeline env pret models exe (initWorld fs) p).map
        (fun r => r.1.trace.getLast?)
      = .ok (some (Event.labelSet "[bold green]Download Complete!"))
    ∧ (prequisites_download_pipeline env pret models exe (initWorld fs) p).map
        (fun r => r.1.trace.filter isLabel)
      = .ok [Event.labelSet "[bold green]Download Complete!"] := by
  obtain ⟨hl, hw0⟩ := calculate_total_size_ok_world hc
  constructor
  · unfold prequisites_download_pipeline
    rw [hc]
    cases models <;> cases hos : env.osName == "nt" <;> cases exe <;> cases pret <;>
      simp [ht, hos, Except.map, List.getLast?_concat]
  · unfold prequisites_download_pipeline
    rw [hc, hw0]
    cases models <;> cases hos : env.osName == "nt" <;> cases exe <;> cases pret <;>
      simp [ht, hos, Except.map, List.filter_append, download_mapping_files_trace_filter,
        initWorld, List.filter_cons, isLabel]

/-- C1 counterexample: in the end-to-end two-missing-file run (two model
files missing, 100 declared-and-served bytes each), the tracker ends with
transferred = 200 but total = 100, not the total = 200 the claim states,
because each fetch worker overwrites the shared total with its own response's
content length. -/
theorem pipeline_tracker_total_counterexample :
    ((prequisites_download_pipeline env100 false true false (initWorld fsEmb) progress0).map
        (fun r => (r.2.total, r.2.transferred))) = .ok (100, 200)
    ∧ ((prequisites_download_pipeline env100 false true false (initWorld fsEmb) progress0).map
        (fun r => r.2.total)) ≠ .ok 200 := by
  constructor
  · rfl
  · intro hc
    have h1 : (Except.ok (100 : Nat) : Except Unit Nat)
        = (prequisites_download_pipeline env100 false true false (initWorld fsEmb)
            progress0).map (fun r => r.2.total) := rfl
    have h2 := h1.trans hc
    simp at h2

/-- C1 amended: after the end-to-end run over the two missing model files,
both destination files exist with exactly 100 bytes and the tracker shows
transferred = 200, the terminal complete label and the stopped flag; its
total, however, is 100 — the last worker's declared per-file size, which
overwrote the aggregate (the last-write-wins race of the per-worker total
update). -/
theorem pipeline_end_to_end_outcome :
    (prequisites_download_pipeline env100 false true false (initWorld fsEmb) progress0).map
        (fun r => (fileSize r.1.fs "rvc/models/predictors/rmvpe.pt",
          fileSize r.1.fs "rvc/models/predictors/fcpe.pt",
          r.2.transferred, r.2.total, r.2.description, r.2.stopped))
      = .ok (some 100, some 100, 200, 100, "[bold green]Download Complete!", true) := by
  rfl

/-- C5 counterexample: with only the executables flag selected on a
non-Windows host the probed total is 0, so the run takes the nothing-to-do
branch and never produces the "No executables needed" notice, contradicting
the claim that every such call produces a skipped notice. -/
theorem pipeline_exe_skip_notice_missing :
    prequisites_download_pipeline env100 false false true (initWorld []) progress0
      = .ok ({ initWorld [] with messages := ["All files are already downloaded."] },
          progress0)
    ∧ "No executables needed"
        ∉ runMessages (prequisites_download_pipeline env100 false false true (initWorld [])
            progress0) := by
  constructor
  · rfl
  · decide

/-- C5 amended: on a non-Windows platform with the executables flag set, no
executables batch is ever dispatched, and the "No executables needed" notice
is produced exactly in the runs whose probed total is positive (when the
total is 0 the run only prints the nothing-to-do message instead). -/
theorem pipeline_exe_gating (env : Env) (fs : List (String × Nat)) (pret models : Bool)
    (p : Progress) (hos : (env.osName == "nt") = false) :
    executables_list ∉ batchCats (prequisites_download_pipeline env pret models true
        (initWorld fs) p)
    ∧ (calcPositiveB env (if pret then pretraineds_hifigan_list else []) models true
          (initWorld fs) = true →
        "No executables needed" ∈ runMessages (prequisites_download_pipeline env pret models
            true (initWorld fs) p)) := by
  cases hc : calculate_total_size env (if pret then pretraineds_hifigan_list else []) models
      true (initWorld fs) with
  | error e =>
    have hpipe : prequisites_download_pipeline env pret models true (initWorld fs) p
        = .error e := by
      unfold prequisites_download_pipeline
      rw [hc]
    constructor
    · rw [hpipe]
      intro hmem
      cases hmem
    · intro hpos
      unfold calcPositiveB at hpos
      rw [hc] at hpos
      cases hpos
  | ok r =>
    obtain ⟨t, w0⟩ := r
    obtain ⟨hl, hw0⟩ := calculate_total_size_ok_world hc
    by_cases ht : 0 < t
    · have hb := batchCats_of_map (pipeline_pos_batches env pret models true fs p t w0 hc ht)
      have hm := runMessages_of_map (pipeline_pos_messages env pret models true fs p t w0 hc ht)
      constructor
      · rw [hb]
        cases models <;> cases pret <;> simp [hos] <;> decide
      · intro _
        rw [hm]
        simp [hos]
    · have hpipe : prequisites_download_pipeline env pret models true (initWorld fs) p
          = .ok ({ w0 with messages := w0.messages ++ ["All files are already downloaded."] },
              p) := by
        unfold prequisites_download_pipeline
        rw [hc]
        simp [ht]
      constructor
      · rw [hpipe]
        simp [batchCats, hw0, initWorld]
      · intro hpos
        unfold calcPositiveB at hpos
        rw [hc] at hpos
        exact absurd (of_decide_eq_true hpos) ht

/-- Witness for the amended C5: a full non-Windows run with a positive total
dispatches the models, embedders and pretrained batches but no executables
batch, and prints the skipped notice. -/
theorem pipeline_exe_gating_witness :
    executables_list ∉ batchCats (prequisites_download_pipeline env100 true true true
        (initWorld []) progress0)
    ∧ "No executables needed" ∈ runMessages (prequisites_download_pipeline env100 true true
        true (initWorld []) progress0) := by
  have h := pipeline_exe_gating env100 [] true true progress0 (by decide)
  exact ⟨h.1, h.2 (by decide)⟩

/-- C6: a run with a positive total and all categories selected processes the
categories in the fixed order models, embedders, executables (only when the
platform is eligible), pretrained-hifigan; every call of the per-category
dispatcher records exactly one batch holding one task per file missing at the
batch start, and its trace shows all of the batch's dispatches, then all of
its worker completions, then the batch end, before anything later; the
completion label is the single label event of the run's trace and is its very
last event, and the final tracker is stopped with the complete description. -/
theorem pipeline_category_order_and_barrier (env : Env) (fs : List (String × Nat))
    (p : Progress) (exe : Bool)
    (h : calcPositiveB env pretraineds_hifigan_list true exe (initWorld fs) = true) :
    (prequisites_download_pipeline env true true exe (initWorld fs) p).map
        (fun r => r.1.batches.map Prod.fst)
      = .ok ([models_list, embedders_list]
          ++ (if exe && (env.osName == "nt") then [executables_list] else [])
          ++ [pretraineds_hifigan_list])
    ∧ (∀ (wa : World) (pa : Progress) (cat : Catalog),
        ((download_mapping_files env cat wa pa).1).batches
          = wa.batches ++ [(cat, collectMissing wa.fs cat)])
    ∧ (∀ (wa : World) (pa : Progress) (cat : Catalog),
        ((download_mapping_files env cat wa pa).1).trace
          = wa.trace ++ [Event.catStart cat]
            ++ (collectMissing wa.fs cat).map (fun t => Event.dispatchedFile t.2)
            ++ (collectMissing wa.fs cat).map (fun t => Event.completedFile t.2)
            ++ [Event.catDone cat])
    ∧ (prequisites_download_pipeline env true true exe (initWorld fs) p).map
        (fun r => r.1.trace.getLast?)
      = .ok (some (Event.labelSet "[bold green]Download Complete!"))
    ∧ (prequisites_download_pipeline env true true exe (initWorld fs) p).map
        (fun r => r.1.trace.filter isLabel)
      = .ok [Event.labelSet "[bold green]Download Complete!"]
    ∧ (prequisites_download_pipeline env true true exe (initWorld fs) p).map
        (fun r => (r.2.description, r.2.stopped))
      = .ok ("[bold green]Download Complete!", true) := by
  unfold calcPositiveB at h
  cases hc : calculate_total_size env pretraineds_hifigan_list true exe (initWorld fs) with
  | error e => rw [hc] at h; cases h
  | ok r =>
    obtain ⟨t, w0⟩ := r
    rw [hc] at h
    have ht : 0 < t := of_decide_eq_true h
    have hlab := pipeline_pos_label env true true exe fs p t w0 hc ht
    refine ⟨?_, fun wa pa cat => download_mapping_files_batches env cat wa pa,
      fun wa pa cat => download_mapping_files_trace env cat wa pa,
      hlab.1, hlab.2, pipeline_pos_final env true true exe fs p t w0 hc ht⟩
    have hb := pipeline_pos_batches env true true exe fs p t w0 hc ht
    simpa using hb

/-- Witness for C6: the concrete non-Windows run over an empty filesystem
with every file served at 100 bytes. -/
theorem pipeline_category_order_and_barrier_witness :
    (prequisites_download_pipeline env100 true true false (initWorld []) progress0).map
        (fun r => r.1.batches.map Prod.fst)
      = .ok ([models_list, embedders_list]
          ++ (if false && (env100.osName == "nt") then [executables_list] else [])
          ++ [pretraineds_hifigan_list])
    ∧ (prequisites_download_pipeline env100 true true false (initWorld []) progress0).map
        (fun r => (r.2.description, r.2.stopped))
      = .ok ("[bold green]Download Complete!", true) := by
  have h := pipeline_category_order_and_barrier env100 [] progress0 false (by decide)
  exact ⟨h.1, h.2.2.2.2.2⟩

/-- Witness for C4 on the specification's example catalog. -/
theorem split_pretraineds_partition_witness :
    folderFiles "pretrained_v2/" (split_pretraineds
        [("pretrained_v2/", ["f0D32k.pth", "f0G32k.pth", "other.pth"])]).1
      = ["f0D32k.pth", "f0G32k.pth"]
    ∧ folderFiles "pretrained_v2/" (split_pretraineds
        [("pretrained_v2/", ["f0D32k.pth", "f0G32k.pth", "other.pth"])]).2
      = ["other.pth"] := by
  have h := split_pretraineds_partition
      [("pretrained_v2/", ["f0D32k.pth", "f0G32k.pth", "other.pth"])] "pretrained_v2/"
  exact ⟨h.1.trans (by rfl), h.2.1.trans (by rfl)⟩

end Applio
